import Mathlib

/-!
Verification of the duplicate-suppression core of the Gmail polling service
(`src/main.py`): identifier-store load/save/migrate, message classification,
URL extraction, header decoding, and the three-phase `check_mail` cycle.

Modelling conventions (shallow embedding):
* Python strings are Lean `String`; `str.startswith`, `str.isdigit` and the
  `in` substring test are embedded over `String.toList`.  `str.isdigit` is
  modelled over ASCII digits (the stored provider ids are ASCII digit runs
  produced by the regex `\d+`).
* Python `set` is `Finset`.
* The backing store file is a `FileContent`: absent, unreadable (IOError on
  open/read), syntactically invalid JSON (json.load raises JSONDecodeError),
  or a parsed JSON value `JValue`.  Whether directory creation and writes
  succeed is the `writable` flag of `Store`.
* Python exceptions are the `Except PyErr` monad; a total Lean function
  models Python code that cannot raise.
* The IMAP mailbox is a `uid -> message` association list; fetching is a
  lookup.  Headers carried by a `MailMessage` are the already-decoded
  subject / from values, and the HTML body is modelled as the anchor list
  that BeautifulSoup would produce.
* The Slack/LINE send operations are external collaborators: each call the
  cycle makes to `notify_slack` / `notify_line` is recorded as a
  `NotifyEvent` tagged with the mailbox uid being processed.
-/

/-- Whether the first character list occurs contiguously inside the second. -/
def isSubListOf (needle : List Char) : List Char → Bool
  | [] => needle.isEmpty
  | c :: rest => needle.isPrefixOf (c :: rest) || isSubListOf needle rest

/-- Python `needle in haystack` substring test. -/
def containsSubstr (haystack needle : String) : Bool :=
  isSubListOf needle.toList haystack.toList

/-- Python `s.startswith(p)`. -/
def strStartsWith (s p : String) : Bool :=
  p.toList.isPrefixOf s.toList

/-- Python `s.isdigit()`: non-empty and every character a digit
(ASCII model of the digit class). -/
def pyIsDigit (s : String) : Bool :=
  !s.toList.isEmpty && s.toList.all Char.isDigit

/-- Python truthiness of an optional string (`if v:`): absent and empty
strings are falsy. -/
def pyTruthy : Option String → Bool
  | none => false
  | some s => !s.isEmpty

/-- Pointwise body of `migrate_old_id_format`: tokens already prefixed
`gm:`/`mid:` pass through; bare digit runs get the `gm:` prefix;
anything else is kept as-is. -/
def migrateToken (idValue : String) : String :=
  if strStartsWith idValue "gm:" || strStartsWith idValue "mid:" then idValue
  else if pyIsDigit idValue then "gm:" ++ idValue
  else idValue

/-- `migrate_old_id_format(ids)`: pointwise migration of a token set. -/
def migrate_old_id_format (ids : Finset String) : Finset String :=
  ids.image migrateToken

/-- `determine_source(subject)`: substring matching against the two subject
markers, Indeed first. -/
def determine_source (subject : String) : Option String × Option String :=
  if containsSubstr subject "新しい応募者のお知らせ" then (some "indeed", none)
  else if containsSubstr subject "ジモティー" then
    (some "jimoty", some "https://jmty.jp/web_mail/posts")
  else (none, none)

/-- `extract_name(from_header)`: text before the first `<`, with double
quotes removed and surrounding whitespace stripped. -/
def extract_name (fromHeader : String) : String :=
  (String.mk ((fromHeader.toList.takeWhile (fun c => c ≠ '<')).filter
    (fun c => c ≠ '"'))).trim

/-- One `<a>` element as produced by BeautifulSoup: visible text and
optional `href` attribute. -/
structure Anchor where
  text : String
  href : Option String
deriving DecidableEq, Repr

/-- Python `a.get("href") or ""`. -/
def anchorHref (a : Anchor) : String :=
  match a.href with
  | some h => h
  | none => ""

/-- Anchor whose visible text carries the call-to-action phrase. -/
def ctaMatch (a : Anchor) : Bool :=
  containsSubstr a.text "応募内容を確認する"

/-- Anchor whose link target mentions the Indeed domain keyword. -/
def hrefIndeed (a : Anchor) : Bool :=
  containsSubstr (anchorHref a) "indeed"

/-- `extract_indeed_url(html)`: first anchor whose text carries the
call-to-action phrase; else first anchor whose href mentions `indeed`;
else the empty string.  The HTML body is modelled by its anchor list. -/
def extract_indeed_url (anchors : List Anchor) : String :=
  match anchors.find? ctaMatch with
  | some a => anchorHref a
  | none =>
    match anchors.find? hrefIndeed with
    | some a => anchorHref a
    | none => ""

/-- Python exceptions reachable from the embedded code. -/
inductive PyErr where
  | typeError
  | attributeError
  | lookupError
deriving DecidableEq, Repr

/-- One chunk of `email.header.decode_header` output: either an
already-decoded `str` part, or a bytes part with its declared charset. -/
inductive HeaderChunk where
  | txt (s : String)
  | enc (bs : List Nat) (charset : Option String)

/-- Finite model of the charsets registered with Python's codec machinery
(alias normalization is folded into the registry list).
`bytes.decode(enc, errors="replace")` raises `LookupError` for any name
outside the registry, `errors="replace"` notwithstanding. -/
def knownCodecs : List String :=
  ["utf-8", "utf8", "ascii", "us-ascii", "latin-1", "iso-8859-1",
   "iso-2022-jp", "shift_jis", "euc-jp", "utf-16", "cp1252"]

/-- Best-effort total byte decode standing in for a known codec with
`errors="replace"`: ASCII bytes decode to themselves, anything else to the
replacement character.  (The claims depend only on totality, not on the
codec-specific text.) -/
def bytesDecodeReplace (bs : List Nat) : String :=
  String.mk (bs.map (fun b => if b < 128 then Char.ofNat b else '�'))

/-- Python `bs.decode(enc, errors="replace")`: total for registered codecs,
`LookupError` for unregistered ones. -/
def pyBytesDecode (enc : String) (bs : List Nat) : Except PyErr String :=
  if knownCodecs.contains enc then .ok (bytesDecodeReplace bs)
  else .error .lookupError

/-- `decode_header_value(value)`, embedded over the chunk list returned by
the stdlib `decode_header` parser: bytes chunks are decoded with their
declared charset (default `utf-8`) and `errors="replace"`, and all chunks
are joined. -/
def decode_header_value : List HeaderChunk → Except PyErr String
  | [] => .ok ""
  | .txt s :: rest =>
    match decode_header_value rest with
    | .ok r => .ok (s ++ r)
    | .error e => .error e
  | .enc bs charset :: rest =>
    match pyBytesDecode (charset.getD "utf-8") bs with
    | .error e => .error e
    | .ok d =>
      match decode_header_value rest with
      | .ok r => .ok (d ++ r)
      | .error e => .error e

/-- Parsed JSON value (what `json.load` can return). -/
inductive JValue where
  | jnull
  | jbool (b : Bool)
  | jnum (n : Int)
  | jstr (s : String)
  | jarr (xs : List JValue)
  | jobj (kvs : List (String × JValue))

/-- Python scalar values that can be members of a `set`. -/
inductive PyScalar where
  | pstr (s : String)
  | pint (n : Int)
  | pbool (b : Bool)
  | pnone
deriving DecidableEq, Repr

/-- The string payload of a scalar (meaningful only for `pstr`). -/
def strVal : PyScalar → String
  | .pstr s => s
  | _ => ""

/-- Whether a scalar is a Python `str`. -/
def isStr : PyScalar → Bool
  | .pstr _ => true
  | _ => false

/-- Hashable conversion of one JSON array element; containers are
unhashable (`set` raises TypeError on them). -/
def scalarOfJson : JValue → Option PyScalar
  | .jstr s => some (.pstr s)
  | .jnum n => some (.pint n)
  | .jbool b => some (.pbool b)
  | .jnull => some .pnone
  | _ => none

/-- Elementwise scalar conversion of a JSON array. -/
def scalarsOf : List JValue → Option (List PyScalar)
  | [] => some []
  | v :: vs =>
    match scalarOfJson v, scalarsOf vs with
    | some s, some ss => some (s :: ss)
    | _, _ => none

/-- Python `set(data)` on a parsed JSON value: a list gives the set of its
(hashable) elements, a string the set of its characters, a dict the set of
its keys; numbers, booleans and null are not iterable (TypeError). -/
def pySetOfJson : JValue → Except PyErr (Finset PyScalar)
  | .jarr xs =>
    match scalarsOf xs with
    | some ss => .ok ss.toFinset
    | none => .error .typeError
  | .jstr s => .ok ((s.toList.map (fun c => PyScalar.pstr (String.mk [c]))).toFinset)
  | .jobj kvs => .ok ((kvs.map (fun kv => PyScalar.pstr kv.1)).toFinset)
  | _ => .error .typeError

/-- State of the backing store file. -/
inductive FileContent where
  | absent
  | unreadable
  | invalidJson
  | json (v : JValue)

/-- The identifier store: file state plus whether the storage location is
writable (directory creation and writes succeed). -/
structure Store where
  file : FileContent
  writable : Bool

/-- The JSON document `save_processed_ids` writes for a token set
(`json.dump(list(processed_ids), f)`; the model fixes a canonical order). -/
def tokensToFile (ids : Finset String) : FileContent :=
  .json (.jarr ((ids.sort (fun a b => a ≤ b)).map .jstr))

/-- `save_processed_ids(processed_ids)`: ensures the directory and writes
the JSON array; returns success.  On failure the file is untouched. -/
def save_processed_ids (ids : Finset String) (st : Store) : Bool × Store :=
  if st.writable then (true, { st with file := tokensToFile ids })
  else (false, st)

/-- `load_processed_ids()`: missing file is a fresh start `(∅, ok)`;
IOError / JSONDecodeError are caught and give `(∅, not ok)`; any other
parsed JSON is turned into a set, migrated, and the migrated set is saved
back immediately when migration changed it.  Exceptions outside the two
caught classes propagate. -/
def load_processed_ids (st : Store) : Except PyErr ((Finset String × Bool) × Store) :=
  match st.file with
  | .absent => .ok ((∅, true), st)
  | .unreadable => .ok ((∅, false), st)
  | .invalidJson => .ok ((∅, false), st)
  | .json v =>
    match pySetOfJson v with
    | .error e => .error e
    | .ok scalars =>
      if _h : ∀ x ∈ scalars, isStr x = true then
        let original := scalars.image strVal
        let migrated := migrate_old_id_format original
        if migrated ≠ original then
          .ok ((migrated, true), (save_processed_ids migrated st).2)
        else
          .ok ((migrated, true), st)
      else .error .attributeError

/-- A message as the cycle sees it: the regex-extracted `X-GM-MSGID`
digits, the `Message-ID` header, the already-decoded subject and From
headers, the HTML body as its anchor list, and whether the full fetch
returns body data. -/
structure MailMessage where
  gmMsgid : Option String
  messageId : Option String
  subject : String
  fromHeader : String
  anchors : List Anchor
  bodyPresent : Bool
deriving DecidableEq, Repr

/-- The mailbox within the search window: uids in the order `UID SEARCH`
reports them, each with its message. -/
def Mailbox := List (String × MailMessage)

/-- `UID FETCH` of a message: lookup by uid. -/
def fetchMsg (mbox : Mailbox) (uid : String) : Option MailMessage :=
  List.lookup uid mbox

/-- `get_unique_id(gm_msgid, msg)`: the `gm:` token when the provider id
is truthy, else the `mid:` token when the Message-ID is truthy, else
nothing. -/
def get_unique_id (gmMsgid messageId : Option String) : Option String :=
  if pyTruthy gmMsgid then some ("gm:" ++ gmMsgid.getD "")
  else if pyTruthy messageId then some ("mid:" ++ messageId.getD "")
  else none

/-- `get_gm_msgid_lightweight(mail, uid)`: header-only fetch returning the
prefixed provider id when the regex matches. -/
def get_gm_msgid_lightweight (mbox : Mailbox) (uid : String) : Option String :=
  match fetchMsg mbox uid with
  | none => none
  | some m =>
    match m.gmMsgid with
    | some g => some ("gm:" ++ g)
    | none => none

/-- One call to a chat-platform send operation, tagged with the mailbox
uid whose processing made the call. -/
structure NotifyEvent where
  channel : String
  source : String
  name : String
  url : String
  uid : String
deriving DecidableEq, Repr

/-- `process_mail_by_uid(mail, uid, processed_ids)`: full fetch, identity
derivation, dedupe check, classification, dispatch.  Returns the unique id
to commit (when any) and the dispatch calls made. -/
def process_mail_by_uid (mbox : Mailbox) (uid : String) (processed : Finset String) :
    Option String × List NotifyEvent :=
  match fetchMsg mbox uid with
  | none => (none, [])
  | some msg =>
    if msg.bodyPresent then
      match get_unique_id msg.gmMsgid msg.messageId with
      | none => (none, [])
      | some uniqueId =>
        if uniqueId ∈ processed then (none, [])
        else
          let name := extract_name msg.fromHeader
          match determine_source msg.subject with
          | (none, _) => (some uniqueId, [])
          | (some src, defaultUrl) =>
            let url := if src = "indeed" then extract_indeed_url msg.anchors
                       else defaultUrl.getD ""
            (some uniqueId,
             [⟨"slack", src, name, url, uid⟩, ⟨"line", src, name, url, uid⟩])
    else (none, [])

/-- Phase 3 of `check_mail`: process each truly-new uid; on success commit
the identity token and the `uid:` token and save immediately; stop at the
first failed save. -/
def phase3 (mbox : Mailbox) : Store → Finset String → List NotifyEvent → List String →
    Store × Finset String × List NotifyEvent
  | st, processed, events, [] => (st, processed, events)
  | st, processed, events, uid :: rest =>
    match process_mail_by_uid mbox uid processed with
    | (none, evs) => phase3 mbox st processed (events ++ evs) rest
    | (some uniqueId, evs) =>
      let processed1 := insert ("uid:" ++ uid) (insert uniqueId processed)
      match save_processed_ids processed1 st with
      | (true, st1) => phase3 mbox st1 processed1 (events ++ evs) rest
      | (false, st1) => (st1, processed1, events ++ evs)

/-- Phase 1 of `check_mail`: uids whose `uid:` token is not cached. -/
def uidsToCheckOf (mbox : Mailbox) (processed : Finset String) : List String :=
  (mbox.map Prod.fst).filter (fun u => !(decide (("uid:" ++ u) ∈ processed)))

/-- Phase 2 test: the lightweight fetch finds a provider id already in the
store. -/
def isMarked (mbox : Mailbox) (processed : Finset String) (u : String) : Bool :=
  match get_gm_msgid_lightweight mbox u with
  | some g => decide (g ∈ processed)
  | none => false

/-- Uids bootstrapped in phase 2 (already processed under `gm:`). -/
def markedUids (mbox : Mailbox) (processed : Finset String) : List String :=
  (uidsToCheckOf mbox processed).filter (isMarked mbox processed)

/-- Uids that survive both filters and get full processing. -/
def trulyNewUids (mbox : Mailbox) (processed : Finset String) : List String :=
  (uidsToCheckOf mbox processed).filter (fun u => !(isMarked mbox processed u))

/-- Observable outcome of one polling cycle: the store as left on disk,
the final value of the in-memory `processed_ids` set, and every dispatch
call made. -/
structure CycleOut where
  store : Store
  finalIds : Finset String
  events : List NotifyEvent

/-- The cycle after a successful load: phase-1 filter, phase-2 bootstrap
(batch `uid:` entries, one save, abort on save failure), phase-3 full
processing. -/
def afterLoad (mbox : Mailbox) (processed : Finset String) (st : Store) : CycleOut :=
  if (uidsToCheckOf mbox processed).isEmpty then ⟨st, processed, []⟩
  else if (markedUids mbox processed).isEmpty then
    ⟨(phase3 mbox st processed [] (trulyNewUids mbox processed)).1,
     (phase3 mbox st processed [] (trulyNewUids mbox processed)).2.1,
     (phase3 mbox st processed [] (trulyNewUids mbox processed)).2.2⟩
  else if (save_processed_ids
      (processed ∪ ((markedUids mbox processed).map (fun u => "uid:" ++ u)).toFinset) st).1 then
    ⟨(phase3 mbox
        (save_processed_ids
          (processed ∪ ((markedUids mbox processed).map (fun u => "uid:" ++ u)).toFinset) st).2
        (processed ∪ ((markedUids mbox processed).map (fun u => "uid:" ++ u)).toFinset)
        [] (trulyNewUids mbox processed)).1,
     (phase3 mbox
        (save_processed_ids
          (processed ∪ ((markedUids mbox processed).map (fun u => "uid:" ++ u)).toFinset) st).2
        (processed ∪ ((markedUids mbox processed).map (fun u => "uid:" ++ u)).toFinset)
        [] (trulyNewUids mbox processed)).2.1,
     (phase3 mbox
        (save_processed_ids
          (processed ∪ ((markedUids mbox processed).map (fun u => "uid:" ++ u)).toFinset) st).2
        (processed ∪ ((markedUids mbox processed).map (fun u => "uid:" ++ u)).toFinset)
        [] (trulyNewUids mbox processed)).2.2⟩
  else
    ⟨(save_processed_ids
        (processed ∪ ((markedUids mbox processed).map (fun u => "uid:" ++ u)).toFinset) st).2,
     processed ∪ ((markedUids mbox processed).map (fun u => "uid:" ++ u)).toFinset, []⟩

/-- `check_mail()`: one polling cycle.  The surrounding `except Exception`
catches anything the load raises (the cycle then makes no dispatch call),
and a corrupted store aborts the cycle. -/
def check_mail (mbox : Mailbox) (st : Store) : CycleOut :=
  match load_processed_ids st with
  | .error _ => ⟨st, ∅, []⟩
  | .ok ((processed, ok), st1) =>
    if ok then afterLoad mbox processed st1 else ⟨st1, ∅, []⟩

/-- The set a cycle starts from: what a successful load returns (empty on
failed or corrupted load). -/
def loadedSet (st : Store) : Finset String :=
  match load_processed_ids st with
  | .ok ((s, true), _) => s
  | _ => ∅

/-- A token set the migration pass leaves unchanged. -/
def migFixed (S : Finset String) : Prop :=
  migrate_old_id_format S = S

/-- A file that loads to exactly `S` with success, leaving the store
untouched, whatever the writable flag. -/
def goodLoad (f : FileContent) (S : Finset String) : Prop :=
  ∀ w : Bool, load_processed_ids ⟨f, w⟩ = .ok ((S, true), ⟨f, w⟩)

theorem toList_append (s t : String) : (s ++ t).toList = s.toList ++ t.toList :=
  String.data_append s t

theorem isPrefixOf_self_append (p t : List Char) : p.isPrefixOf (p ++ t) = true := by
  induction p with
  | nil => simp [List.isPrefixOf]
  | cons a as ih => simp [List.isPrefixOf, ih]

theorem isPrefixOf_exists (p : List Char) :
    ∀ l, p.isPrefixOf l = true → ∃ t, l = p ++ t := by
  induction p with
  | nil => intro l _; exact ⟨l, rfl⟩
  | cons a as ih =>
    intro l h
    cases l with
    | nil =>
      simp only [List.isPrefixOf] at h
      exact absurd h (by decide)
    | cons b bs =>
      simp only [List.isPrefixOf, Bool.and_eq_true, beq_iff_eq] at h
      obtain ⟨rfl, h2⟩ := h
      obtain ⟨t, rfl⟩ := ih bs h2
      exact ⟨t, rfl⟩

theorem strStartsWith_self_append (p x : String) : strStartsWith (p ++ x) p = true := by
  unfold strStartsWith
  rw [toList_append]
  exact isPrefixOf_self_append _ _

theorem strStartsWith_toList (s p : String) (h : strStartsWith s p = true) :
    ∃ t, s.toList = p.toList ++ t :=
  isPrefixOf_exists p.toList s.toList h

theorem migrateToken_gm (x : String) : migrateToken ("gm:" ++ x) = "gm:" ++ x := by
  unfold migrateToken
  rw [strStartsWith_self_append]
  simp

theorem migrateToken_mid (x : String) : migrateToken ("mid:" ++ x) = "mid:" ++ x := by
  unfold migrateToken
  rw [strStartsWith_self_append]
  simp

theorem toList_uid_append (x : String) :
    ("uid:" ++ x).toList = 'u' :: 'i' :: 'd' :: ':' :: x.toList := by
  rw [toList_append]
  rfl

theorem migrateToken_of_head (s : String) (c : Char) (l : List Char)
    (hs : s.toList = c :: l) (hg : ('g' == c) = false) (hm : ('m' == c) = false)
    (hd : c.isDigit = false) : migrateToken s = s := by
  have h1 : strStartsWith s "gm:" = false := by
    unfold strStartsWith
    rw [hs]
    show List.isPrefixOf ('g' :: 'm' :: ':' :: []) (c :: l) = false
    simp [List.isPrefixOf, hg]
  have h2 : strStartsWith s "mid:" = false := by
    unfold strStartsWith
    rw [hs]
    show List.isPrefixOf ('m' :: 'i' :: 'd' :: ':' :: []) (c :: l) = false
    simp [List.isPrefixOf, hm]
  have h3 : pyIsDigit s = false := by
    unfold pyIsDigit
    rw [hs]
    simp [hd]
  unfold migrateToken
  rw [h1, h2, h3]
  simp

theorem migrateToken_uid (x : String) : migrateToken ("uid:" ++ x) = "uid:" ++ x :=
  migrateToken_of_head _ 'u' _ (toList_uid_append x) (by decide) (by decide) (by decide)

theorem migrateToken_digit (n : String) (h : pyIsDigit n = true) :
    migrateToken n = "gm:" ++ n := by
  obtain ⟨c, l, hn⟩ : ∃ c l, n.toList = c :: l := by
    cases hl : n.toList with
    | nil => rw [pyIsDigit, hl] at h; simp at h
    | cons c l => exact ⟨c, l, rfl⟩
  have hcd : c.isDigit = true := by
    rw [pyIsDigit, hn] at h
    simp at h
    exact h.1
  have h1 : strStartsWith n "gm:" = false := by
    unfold strStartsWith
    rw [hn]
    show List.isPrefixOf ('g' :: 'm' :: ':' :: []) (c :: l) = false
    have : ('g' == c) = false := by
      cases hq : ('g' == c) with
      | false => rfl
      | true =>
        have : 'g' = c := by exact eq_of_beq hq
        rw [← this] at hcd
        simp [Char.isDigit] at hcd
    simp [List.isPrefixOf, this]
  have h2 : strStartsWith n "mid:" = false := by
    unfold strStartsWith
    rw [hn]
    show List.isPrefixOf ('m' :: 'i' :: 'd' :: ':' :: []) (c :: l) = false
    have : ('m' == c) = false := by
      cases hq : ('m' == c) with
      | false => rfl
      | true =>
        have : 'm' = c := by exact eq_of_beq hq
        rw [← this] at hcd
        simp [Char.isDigit] at hcd
    simp [List.isPrefixOf, this]
  unfold migrateToken
  rw [h1, h2, h]
  simp

theorem migrateToken_other (s : String) (h1 : strStartsWith s "gm:" = false)
    (h2 : strStartsWith s "mid:" = false) (h3 : pyIsDigit s = false) :
    migrateToken s = s := by
  unfold migrateToken
  rw [h1, h2, h3]
  simp

theorem migrateToken_idem (s : String) :
    migrateToken (migrateToken s) = migrateToken s := by
  by_cases h1 : (strStartsWith s "gm:" || strStartsWith s "mid:") = true
  · have : migrateToken s = s := by unfold migrateToken; rw [h1]; simp
    rw [this, this]
  · by_cases h2 : pyIsDigit s = true
    · have : migrateToken s = "gm:" ++ s := by
        unfold migrateToken
        rw [Bool.not_eq_true] at h1
        rw [h1, h2]
        simp
      rw [this, migrateToken_gm]
    · have : migrateToken s = s := by
        unfold migrateToken
        rw [Bool.not_eq_true] at h1
        rw [Bool.not_eq_true] at h2
        rw [h1, h2]
        simp
      rw [this, this]

theorem migrate_pointwise (S : Finset String) (h : ∀ a ∈ S, migrateToken a = a) :
    migrate_old_id_format S = S := by
  unfold migrate_old_id_format
  ext b
  simp only [Finset.mem_image]
  constructor
  · rintro ⟨a, ha, rfl⟩
    rw [h a ha]
    exact ha
  · intro hb
    exact ⟨b, hb, h b hb⟩

theorem migFixed_migrate (S : Finset String) : migFixed (migrate_old_id_format S) := by
  apply migrate_pointwise
  intro a ha
  rw [migrate_old_id_format, Finset.mem_image] at ha
  obtain ⟨c, _, rfl⟩ := ha
  exact migrateToken_idem c

theorem migFixed_insert (a : String) (S : Finset String) (ha : migrateToken a = a)
    (hS : migFixed S) : migFixed (insert a S) := by
  unfold migFixed migrate_old_id_format at *
  rw [Finset.image_insert, ha, hS]

theorem migFixed_union (S T : Finset String) (hS : migFixed S) (hT : migFixed T) :
    migFixed (S ∪ T) := by
  unfold migFixed migrate_old_id_format at *
  rw [Finset.image_union, hS, hT]

/-- Claim C4: `migrate_old_id_format` maps tokens pointwise — a legacy bare
digit run `n` becomes `gm:` ++ `n`; a token prefixed `gm:`, `mid:` or `uid:`
is unchanged; any other non-numeric string is unchanged; hence a set of
well-formed tokens (prefixed or non-numeric) is a fixed point, and a legacy
singleton migrates to its prefixed form. -/
theorem migrate_old_id_format_spec :
    (∀ n : String, pyIsDigit n = true → migrateToken n = "gm:" ++ n) ∧
    (∀ s : String,
      (strStartsWith s "gm:" || strStartsWith s "mid:" || strStartsWith s "uid:") = true →
      migrateToken s = s) ∧
    (∀ s : String, pyIsDigit s = false →
      (strStartsWith s "gm:" || strStartsWith s "mid:" || strStartsWith s "uid:") = false →
      migrateToken s = s) ∧
    (∀ T : Finset String,
      (∀ t ∈ T,
        (strStartsWith t "gm:" || strStartsWith t "mid:" || strStartsWith t "uid:") = true ∨
        pyIsDigit t = false) →
      migrate_old_id_format T = T) ∧
    (∀ n : String, pyIsDigit n = true → migrate_old_id_format {n} = {"gm:" ++ n}) := by
  have pointFix : ∀ s : String,
      (strStartsWith s "gm:" || strStartsWith s "mid:" || strStartsWith s "uid:") = true →
      migrateToken s = s := by
    intro s h
    rcases Bool.or_eq_true_iff.mp h with h1 | h2
    · rcases Bool.or_eq_true_iff.mp h1 with hg | hm
      · obtain ⟨t, ht⟩ := strStartsWith_toList s "gm:" hg
        unfold migrateToken
        rw [strStartsWith, ht, isPrefixOf_self_append]
        simp
      · obtain ⟨t, ht⟩ := strStartsWith_toList s "mid:" hm
        unfold migrateToken
        have : strStartsWith s "mid:" = true := hm
        rw [this]
        simp
    · obtain ⟨t, ht⟩ := strStartsWith_toList s "uid:" h2
      exact migrateToken_of_head s 'u' ('i' :: 'd' :: ':' :: t) ht
        (by decide) (by decide) (by decide)
  have otherFix : ∀ s : String, pyIsDigit s = false →
      (strStartsWith s "gm:" || strStartsWith s "mid:" || strStartsWith s "uid:") = false →
      migrateToken s = s := by
    intro s hd hp
    simp only [Bool.or_eq_false_iff] at hp
    exact migrateToken_other s hp.1.1 hp.1.2 hd
  refine ⟨fun n h => migrateToken_digit n h, pointFix, otherFix, ?_, ?_⟩
  · intro T hT
    apply migrate_pointwise
    intro a ha
    rcases hT a ha with h | h
    · exact pointFix a h
    · by_cases hp : (strStartsWith a "gm:" || strStartsWith a "mid:" ||
        strStartsWith a "uid:") = true
      · exact pointFix a hp
      · exact otherFix a h (Bool.not_eq_true _ ▸ hp)
  · intro n h
    unfold migrate_old_id_format
    rw [Finset.image_singleton, migrateToken_digit n h]

/-- Witness for C4: concrete evaluations through the theorem. -/
theorem migrate_old_id_format_spec_witness :
    migrateToken "12345" = "gm:12345" ∧
    migrate_old_id_format {"7"} = {"gm:7"} ∧
    migrate_old_id_format {"gm:1", "mid:<a@b>", "uid:9", "hello"} =
      {"gm:1", "mid:<a@b>", "uid:9", "hello"} :=
  ⟨migrate_old_id_format_spec.1 "12345" (by decide),
   migrate_old_id_format_spec.2.2.2.2 "7" (by decide),
   migrate_old_id_format_spec.2.2.2.1 _ (by decide)⟩

/-- Counterexample to C7: a subject containing both markers is classified
as Indeed, not as the classifieds source. -/
theorem determine_source_both_markers_not_jimoty :
    containsSubstr "ジモティー 新しい応募者のお知らせ" "ジモティー" = true ∧
    determine_source "ジモティー 新しい応募者のお知らせ" = (some "indeed", none) ∧
    determine_source "ジモティー 新しい応募者のお知らせ" ≠
      (some "jimoty", some "https://jmty.jp/web_mail/posts") := by
  refine ⟨by decide, by decide, by decide⟩

/-- Claim C7 (amended): a subject containing the classifieds marker and not
the Indeed marker classifies as the classifieds source with the fixed
default URL. -/
theorem determine_source_jimoty (s : String)
    (hj : containsSubstr s "ジモティー" = true)
    (hi : containsSubstr s "新しい応募者のお知らせ" = false) :
    determine_source s = (some "jimoty", some "https://jmty.jp/web_mail/posts") := by
  unfold determine_source
  rw [hi, hj]
  simp

/-- Witness for C7 (amended) at a concrete subject. -/
theorem determine_source_jimoty_witness :
    determine_source "ジモティーからのお知らせ" =
      (some "jimoty", some "https://jmty.jp/web_mail/posts") :=
  determine_source_jimoty _ (by decide) (by decide)

/-- Claim C10: the Indeed marker is tested first, so a subject containing
both markers classifies as Indeed with no default URL. -/
theorem determine_source_indeed_priority (s : String)
    (hi : containsSubstr s "新しい応募者のお知らせ" = true)
    (_hj : containsSubstr s "ジモティー" = true) :
    determine_source s = (some "indeed", none) := by
  unfold determine_source
  rw [hi]
  simp

/-- Witness for C10 at a concrete subject containing both markers. -/
theorem determine_source_indeed_priority_witness :
    determine_source "ジモティー 新しい応募者のお知らせ" = (some "indeed", none) :=
  determine_source_indeed_priority _ (by decide) (by decide)

/-- Claim C9 (the code is wrong here): an encoded word declaring an
unregistered charset makes `decode_header_value` raise `LookupError` —
`errors="replace"` does not cover codec lookup — where the spec requires a
best-effort decode without raising.  The input models the header
`=?x-unknown?B?aGVsbG8=?=`, whose chunk is the bytes of `hello` declared as
charset `x-unknown`. -/
theorem decode_header_value_unknown_charset_raises :
    decode_header_value [.enc [104, 101, 108, 108, 111] (some "x-unknown")] =
      .error .lookupError := by
  have h : "x-unknown" ∉ knownCodecs := by decide
  simp [decode_header_value, pyBytesDecode, h]

theorem find?_front_skip (p : Anchor → Bool) :
    ∀ (front rest : List Anchor), (∀ b ∈ front, p b = false) →
    (front ++ rest).find? p = rest.find? p := by
  intro front
  induction front with
  | nil => intro rest _; rfl
  | cons a t ih =>
    intro rest h
    have ha : p a = false := h a (by simp)
    simp only [List.cons_append]
    rw [List.find?_cons_of_neg _ (by simp [ha])]
    exact ih rest (fun b hb => h b (by simp [hb]))

/-- Claim C8: `extract_indeed_url` returns the href of the first anchor
whose text carries the call-to-action phrase, regardless of `indeed` hrefs
elsewhere; with no text match it returns the first href mentioning
`indeed`; with neither it returns the empty string. -/
theorem extract_indeed_url_spec :
    (∀ (front back : List Anchor) (a : Anchor) (X : String),
      (∀ b ∈ front, ctaMatch b = false) → ctaMatch a = true → a.href = some X →
      extract_indeed_url (front ++ a :: back) = X) ∧
    (∀ (front back : List Anchor) (a : Anchor) (X : String),
      (∀ b ∈ front ++ a :: back, ctaMatch b = false) →
      (∀ b ∈ front, hrefIndeed b = false) → hrefIndeed a = true → a.href = some X →
      extract_indeed_url (front ++ a :: back) = X) ∧
    (∀ l : List Anchor, (∀ b ∈ l, ctaMatch b = false ∧ hrefIndeed b = false) →
      extract_indeed_url l = "") := by
  refine ⟨?_, ?_, ?_⟩
  · intro front back a X hfront ha hx
    have hfind : (front ++ a :: back).find? ctaMatch = some a := by
      rw [find?_front_skip ctaMatch front (a :: back) hfront]
      exact List.find?_cons_of_pos _ ha
    simp [extract_indeed_url, hfind, anchorHref, hx]
  · intro front back a X hcta hfront ha hx
    have hnone : (front ++ a :: back).find? ctaMatch = none :=
      List.find?_eq_none.mpr (fun x hxmem => by simp [hcta x hxmem])
    have hfind : (front ++ a :: back).find? hrefIndeed = some a := by
      rw [find?_front_skip hrefIndeed front (a :: back) hfront]
      exact List.find?_cons_of_pos _ ha
    simp [extract_indeed_url, hnone, hfind, anchorHref, hx]
  · intro l h
    have h1 : l.find? ctaMatch = none :=
      List.find?_eq_none.mpr (fun x hxmem => by simp [(h x hxmem).1])
    have h2 : l.find? hrefIndeed = none :=
      List.find?_eq_none.mpr (fun x hxmem => by simp [(h x hxmem).2])
    simp [extract_indeed_url, h1, h2]

/-- Witness for C8: the three behaviours at concrete anchor lists. -/
theorem extract_indeed_url_spec_witness :
    extract_indeed_url
      [⟨"see", some "https://indeed.com/other"⟩,
       ⟨"応募内容を確認する", some "https://x.example/apply/123"⟩,
       ⟨"more", some "https://indeed.com/zzz"⟩] = "https://x.example/apply/123" ∧
    extract_indeed_url [⟨"View Job", some "https://indeed.com/job/456"⟩] =
      "https://indeed.com/job/456" ∧
    extract_indeed_url [⟨"Some link", some "https://example.com"⟩] = "" :=
  ⟨extract_indeed_url_spec.1 [⟨"see", some "https://indeed.com/other"⟩]
      [⟨"more", some "https://indeed.com/zzz"⟩]
      ⟨"応募内容を確認する", some "https://x.example/apply/123"⟩ _
      (by decide) (by decide) rfl,
   extract_indeed_url_spec.2.1 [] []
      ⟨"View Job", some "https://indeed.com/job/456"⟩ _
      (by decide) (by decide) (by decide) rfl,
   extract_indeed_url_spec.2.2 [⟨"Some link", some "https://example.com"⟩]
      (by decide)⟩

theorem toFinset_map_image {α β : Type} [DecidableEq α] [DecidableEq β]
    (f : α → β) (l : List α) : (l.map f).toFinset = l.toFinset.image f := by
  induction l with
  | nil => simp
  | cons a t ih => simp [ih]

theorem scalarsOf_jstr (l : List String) :
    scalarsOf (l.map .jstr) = some (l.map .pstr) := by
  induction l with
  | nil => rfl
  | cons a t ih => simp [scalarsOf, scalarOfJson, ih]

theorem pySetOfJson_tokens (S : Finset String) :
    pySetOfJson (.jarr ((S.sort (fun a b => a ≤ b)).map .jstr)) =
      .ok (S.image .pstr) := by
  simp only [pySetOfJson, scalarsOf_jstr]
  rw [toFinset_map_image, Finset.sort_toFinset]

theorem image_pstr_strVal (S : Finset String) :
    (S.image PyScalar.pstr).image strVal = S := by
  rw [Finset.image_image]
  have h : S.image (strVal ∘ PyScalar.pstr) = S.image id :=
    Finset.image_congr (fun x _ => rfl)
  rw [h, Finset.image_id]

theorem load_json_eq (v : JValue) (S : Finset String) (w : Bool)
    (hv : pySetOfJson v = .ok (S.image .pstr)) :
    load_processed_ids ⟨.json v, w⟩ =
      (if migrate_old_id_format S ≠ S
       then .ok ((migrate_old_id_format S, true),
                 (save_processed_ids (migrate_old_id_format S) ⟨.json v, w⟩).2)
       else .ok ((migrate_old_id_format S, true), ⟨.json v, w⟩)) := by
  have hall : ∀ x ∈ S.image PyScalar.pstr, isStr x = true := by
    intro x hx
    rw [Finset.mem_image] at hx
    obtain ⟨a, _, rfl⟩ := hx
    rfl
  unfold load_processed_ids
  simp only [hv]
  rw [dif_pos hall]
  simp only [image_pstr_strVal]

theorem load_tokensToFile (S : Finset String) (w : Bool) (h : migFixed S) :
    load_processed_ids ⟨tokensToFile S, w⟩ = .ok ((S, true), ⟨tokensToFile S, w⟩) := by
  rw [tokensToFile]
  rw [load_json_eq _ S w (pySetOfJson_tokens S)]
  rw [if_neg (fun hc => hc h)]
  rw [migFixed] at h
  rw [h]

/-- Counterexample to C2: a store file holding the valid JSON document `5`
cannot be parsed as the expected array of tokens, yet `load_processed_ids`
raises `TypeError` (`len()` of a number) instead of returning
`(empty set, not ok)` — only `JSONDecodeError` and `IOError` are caught. -/
theorem load_nonarray_json_raises :
    load_processed_ids ⟨.json (.jnum 5), true⟩ = .error .typeError := rfl

/-- Claim C2 (amended): when the backing file exists but is unreadable or
is not syntactically valid JSON, `load_processed_ids` returns
`(empty set, ok=false)` without raising; valid JSON of a non-array shape
is outside the caught exception classes and may raise. -/
theorem load_corrupted_returns_false (st : Store)
    (h : st.file = .unreadable ∨ st.file = .invalidJson) :
    load_processed_ids st = .ok ((∅, false), st) := by
  obtain ⟨f, w⟩ := st
  rcases h with h | h
  · have h2 : f = FileContent.unreadable := h
    subst h2
    rfl
  · have h2 : f = FileContent.invalidJson := h
    subst h2
    rfl

/-- Witness for C2 (amended) at a concrete corrupted store. -/
theorem load_corrupted_returns_false_witness :
    load_processed_ids ⟨.invalidJson, true⟩ = .ok ((∅, false), ⟨.invalidJson, true⟩) :=
  load_corrupted_returns_false ⟨.invalidJson, true⟩ (Or.inr rfl)

/-- Claim C5 (amended): saving a token set the migration pass fixes, to a
writable store, and loading it back returns exactly that set with
`ok=true`.  (A set holding a legacy bare-numeric token is instead returned
migrated — see the counterexample.) -/
theorem save_load_roundtrip (T : Finset String) (st : Store)
    (hw : st.writable = true) (hT : migFixed T) :
    load_processed_ids ((save_processed_ids T st).2) =
      .ok ((T, true), (save_processed_ids T st).2) := by
  obtain ⟨f, w⟩ := st
  have hw2 : w = true := hw
  subst hw2
  have hs : save_processed_ids T ⟨f, true⟩ = (true, ⟨tokensToFile T, true⟩) := rfl
  rw [hs]
  exact load_tokensToFile T true hT

/-- Witness for C5 (amended) at a concrete well-formed token set. -/
theorem save_load_roundtrip_witness :
    load_processed_ids ((save_processed_ids {"gm:1"} ⟨.absent, true⟩).2) =
      .ok (({"gm:1"}, true), (save_processed_ids {"gm:1"} ⟨.absent, true⟩).2) :=
  save_load_roundtrip {"gm:1"} ⟨.absent, true⟩ rfl
    (show migrate_old_id_format {"gm:1"} = {"gm:1"} by decide)

/-- Counterexample to C5: the round trip is not the identity on every token
set — saving the legacy set containing the bare token `1` and loading it
back yields the migrated set containing `gm:1`, not the saved set. -/
theorem save_load_roundtrip_fails_on_legacy :
    load_processed_ids ((save_processed_ids {"1"} ⟨.absent, true⟩).2) =
      .ok (({"gm:1"}, true), ⟨tokensToFile {"gm:1"}, true⟩) ∧
    ({"gm:1"} : Finset String) ≠ {"1"} := by
  constructor
  · have hs : (save_processed_ids {"1"} (⟨.absent, true⟩ : Store)).2 =
        ⟨tokensToFile {"1"}, true⟩ := rfl
    rw [hs, tokensToFile]
    rw [load_json_eq _ {"1"} true (pySetOfJson_tokens {"1"})]
    have hm : migrate_old_id_format {"1"} = {"gm:1"} := by decide
    rw [if_pos (by rw [hm]; decide)]
    rw [hm]
    rfl
  · decide

theorem migFixed_empty : migFixed (∅ : Finset String) := by
  simp [migFixed, migrate_old_id_format]

theorem save_ok (S : Finset String) (st : Store) (hw : st.writable = true) :
    save_processed_ids S st = (true, ⟨tokensToFile S, true⟩) := by
  obtain ⟨f, w⟩ := st
  have hw2 : w = true := hw
  subst hw2
  rfl

theorem goodLoad_tokensToFile (S : Finset String) (h : migFixed S) :
    goodLoad (tokensToFile S) S :=
  fun w => load_tokensToFile S w h

theorem goodLoad_absent : goodLoad .absent ∅ :=
  fun _ => rfl

theorem image_strVal_pstr (scalars : Finset PyScalar)
    (hall : ∀ x ∈ scalars, isStr x = true) :
    (scalars.image strVal).image PyScalar.pstr = scalars := by
  rw [Finset.image_image]
  have h : scalars.image (PyScalar.pstr ∘ strVal) = scalars.image id := by
    apply Finset.image_congr
    intro x hx
    have hs := hall x hx
    cases x with
    | pstr s => rfl
    | pint n => simp [isStr] at hs
    | pbool b => simp [isStr] at hs
    | pnone => simp [isStr] at hs
  rw [h, Finset.image_id]

theorem load_ok_good (st : Store) (S : Finset String) (st1 : Store)
    (hw : st.writable = true)
    (hload : load_processed_ids st = .ok ((S, true), st1)) :
    st1.writable = true ∧ migFixed S ∧ goodLoad st1.file S := by
  obtain ⟨f, w⟩ := st
  have hw2 : w = true := hw
  subst hw2
  cases f with
  | absent =>
    have h0 : load_processed_ids ⟨FileContent.absent, true⟩ =
        .ok ((∅, true), ⟨FileContent.absent, true⟩) := rfl
    rw [h0] at hload
    simp only [Except.ok.injEq, Prod.mk.injEq] at hload
    obtain ⟨⟨hS, _⟩, hst⟩ := hload
    subst hS
    subst hst
    exact ⟨rfl, migFixed_empty, goodLoad_absent⟩
  | unreadable =>
    have h0 : load_processed_ids ⟨FileContent.unreadable, true⟩ =
        .ok ((∅, false), ⟨FileContent.unreadable, true⟩) := rfl
    rw [h0] at hload
    simp at hload
  | invalidJson =>
    have h0 : load_processed_ids ⟨FileContent.invalidJson, true⟩ =
        .ok ((∅, false), ⟨FileContent.invalidJson, true⟩) := rfl
    rw [h0] at hload
    simp at hload
  | json v =>
    cases hps : pySetOfJson v with
    | error e =>
      have h0 : load_processed_ids ⟨FileContent.json v, true⟩ = .error e := by
        unfold load_processed_ids
        simp only [hps]
      rw [h0] at hload
      simp at hload
    | ok scalars =>
      by_cases hall : ∀ x ∈ scalars, isStr x = true
      · have hPS : pySetOfJson v = .ok ((scalars.image strVal).image PyScalar.pstr) := by
          rw [image_strVal_pstr scalars hall, hps]
        have h0 := load_json_eq v (scalars.image strVal) true hPS
        rw [h0] at hload
        by_cases hne : migrate_old_id_format (scalars.image strVal) ≠ scalars.image strVal
        · rw [if_pos hne] at hload
          have hsave : (save_processed_ids
              (migrate_old_id_format (scalars.image strVal))
              ⟨FileContent.json v, true⟩).2 =
              ⟨tokensToFile (migrate_old_id_format (scalars.image strVal)), true⟩ := rfl
          rw [hsave] at hload
          simp only [Except.ok.injEq, Prod.mk.injEq] at hload
          obtain ⟨⟨hS, _⟩, hst⟩ := hload
          subst hS
          subst hst
          exact ⟨rfl, migFixed_migrate _,
            goodLoad_tokensToFile _ (migFixed_migrate _)⟩
        · rw [if_neg hne] at hload
          simp only [Except.ok.injEq, Prod.mk.injEq] at hload
          obtain ⟨⟨hS, _⟩, hst⟩ := hload
          subst hS
          subst hst
          refine ⟨rfl, migFixed_migrate _, ?_⟩
          intro w'
          have h1 := load_json_eq v (scalars.image strVal) w' hPS
          rw [if_neg hne] at h1
          exact h1
      · have h0 : load_processed_ids ⟨FileContent.json v, true⟩ = .error .attributeError := by
          unfold load_processed_ids
          simp only [hps]
          rw [dif_neg hall]
        rw [h0] at hload
        simp at hload

theorem load_false_store (st : Store) (S : Finset String) (st1 : Store)
    (h : load_processed_ids st = .ok ((S, false), st1)) : st1 = st := by
  obtain ⟨f, w⟩ := st
  cases f with
  | absent => simp [load_processed_ids] at h
  | unreadable =>
    have h0 : load_processed_ids ⟨FileContent.unreadable, w⟩ =
        .ok ((∅, false), ⟨FileContent.unreadable, w⟩) := rfl
    rw [h0] at h
    simp only [Except.ok.injEq, Prod.mk.injEq] at h
    exact h.2.symm
  | invalidJson =>
    have h0 : load_processed_ids ⟨FileContent.invalidJson, w⟩ =
        .ok ((∅, false), ⟨FileContent.invalidJson, w⟩) := rfl
    rw [h0] at h
    simp only [Except.ok.injEq, Prod.mk.injEq] at h
    exact h.2.symm
  | json v =>
    unfold load_processed_ids at h
    cases hps : pySetOfJson v with
    | error e =>
      simp [hps] at h
    | ok scalars =>
      simp only [hps] at h
      by_cases hall : ∀ x ∈ scalars, isStr x = true
      · rw [dif_pos hall] at h
        split at h <;> simp at h
      · rw [dif_neg hall] at h
        simp at h

theorem check_mail_load_ok (mbox : Mailbox) (st : Store) (S : Finset String) (st1 : Store)
    (h : load_processed_ids st = .ok ((S, true), st1)) :
    check_mail mbox st = afterLoad mbox S st1 := by
  unfold check_mail
  rw [h]
  rfl

theorem check_mail_load_false (mbox : Mailbox) (st : Store) (S : Finset String) (st1 : Store)
    (h : load_processed_ids st = .ok ((S, false), st1)) :
    check_mail mbox st = ⟨st1, ∅, []⟩ := by
  unfold check_mail
  rw [h]
  rfl

theorem check_mail_load_error (mbox : Mailbox) (st : Store) (e : PyErr)
    (h : load_processed_ids st = .error e) :
    check_mail mbox st = ⟨st, ∅, []⟩ := by
  unfold check_mail
  rw [h]

theorem uid_ne_gm (x y : String) : "uid:" ++ x ≠ "gm:" ++ y := by
  intro h
  have h2 : ("uid:" ++ x).toList = ("gm:" ++ y).toList := by rw [h]
  rw [toList_uid_append, toList_append] at h2
  have h3 : "gm:".toList = ['g', 'm', ':'] := rfl
  rw [h3] at h2
  injection h2 with hc _
  exact absurd hc (by decide)

theorem uid_ne_mid (x y : String) : "uid:" ++ x ≠ "mid:" ++ y := by
  intro h
  have h2 : ("uid:" ++ x).toList = ("mid:" ++ y).toList := by rw [h]
  rw [toList_uid_append, toList_append] at h2
  have h3 : "mid:".toList = ['m', 'i', 'd', ':'] := rfl
  rw [h3] at h2
  injection h2 with hc _
  exact absurd hc (by decide)

theorem uid_inj (x y : String) (h : "uid:" ++ x = "uid:" ++ y) : x = y := by
  have h2 : ("uid:" ++ x).toList = ("uid:" ++ y).toList := by rw [h]
  rw [toList_uid_append, toList_uid_append] at h2
  injection h2 with _ h2
  injection h2 with _ h2
  injection h2 with _ h2
  injection h2 with _ h2
  exact String.ext h2

theorem get_unique_id_shape (gm mid : Option String) (u : String)
    (h : get_unique_id gm mid = some u) :
    (∃ g, u = "gm:" ++ g) ∨ (∃ m, u = "mid:" ++ m) := by
  unfold get_unique_id at h
  split_ifs at h
  · exact Or.inl ⟨_, (Option.some.inj h).symm⟩
  · exact Or.inr ⟨_, (Option.some.inj h).symm⟩

theorem process_mono_none (mbox : Mailbox) (uid : String) (P Q : Finset String)
    (hPQ : P ⊆ Q) (h : (process_mail_by_uid mbox uid P).1 = none) :
    process_mail_by_uid mbox uid P = (none, []) ∧
    process_mail_by_uid mbox uid Q = (none, []) := by
  unfold process_mail_by_uid at h ⊢
  cases hf : fetchMsg mbox uid with
  | none => simp [hf]
  | some msg =>
    simp only [hf] at h ⊢
    cases hb : msg.bodyPresent with
    | false => simp [hb]
    | true =>
      simp only [hb, if_true] at h ⊢
      cases hu : get_unique_id msg.gmMsgid msg.messageId with
      | none => simp [hu]
      | some u =>
        simp only [hu] at h ⊢
        by_cases hmem : u ∈ P
        · have hmQ : u ∈ Q := hPQ hmem
          simp [hmem, hmQ]
        · exfalso
          rw [if_neg hmem] at h
          rcases hds : determine_source msg.subject with ⟨s, d⟩
          cases s <;> simp [hds] at h

theorem process_events_uid (mbox : Mailbox) (u : String) (P : Finset String) :
    ∀ e ∈ (process_mail_by_uid mbox u P).2, e.uid = u := by
  unfold process_mail_by_uid
  cases hf : fetchMsg mbox u with
  | none => simp
  | some msg =>
    simp only [hf]
    cases hb : msg.bodyPresent with
    | false => simp [hb]
    | true =>
      simp only [hb, if_true]
      cases hu : get_unique_id msg.gmMsgid msg.messageId with
      | none => simp
      | some uId =>
        simp only
        by_cases hmem : uId ∈ P
        · simp [hmem]
        · rw [if_neg hmem]
          rcases hds : determine_source msg.subject with ⟨s, d⟩
          cases s with
          | none => simp [hds]
          | some src =>
            simp only [hds]
            intro e he
            simp at he
            rcases he with rfl | rfl <;> rfl

theorem process_some_shape (mbox : Mailbox) (u : String) (P : Finset String)
    (uId : String) (evs : List NotifyEvent)
    (h : process_mail_by_uid mbox u P = (some uId, evs)) :
    migrateToken uId = uId ∧
    ((∃ g, uId = "gm:" ++ g) ∨ (∃ m, uId = "mid:" ++ m)) := by
  unfold process_mail_by_uid at h
  cases hf : fetchMsg mbox u with
  | none => simp [hf] at h
  | some msg =>
    simp only [hf] at h
    cases hb : msg.bodyPresent with
    | false => simp [hb] at h
    | true =>
      simp only [hb, if_true] at h
      cases hu : get_unique_id msg.gmMsgid msg.messageId with
      | none =>
        rw [hu] at h
        simp at h
      | some u2 =>
        simp only [hu] at h
        by_cases hmem : u2 ∈ P
        · rw [if_pos hmem] at h
          simp at h
        · rw [if_neg hmem] at h
          have hu2 : u2 = uId := by
            rcases hds : determine_source msg.subject with ⟨s, d⟩
            cases s <;> simp [hds, Prod.mk.injEq] at h <;> exact h.1
          subst hu2
          rcases get_unique_id_shape _ _ _ hu with ⟨g, rfl⟩ | ⟨m, rfl⟩
          · exact ⟨migrateToken_gm g, Or.inl ⟨g, rfl⟩⟩
          · exact ⟨migrateToken_mid m, Or.inr ⟨m, rfl⟩⟩

theorem phase3_mono (mbox : Mailbox) :
    ∀ (uids : List String) (st : Store) (P : Finset String) (evs : List NotifyEvent),
    P ⊆ (phase3 mbox st P evs uids).2.1 := by
  intro uids
  induction uids with
  | nil => intro st P evs; simp [phase3]
  | cons u rest ih =>
    intro st P evs
    cases hp : process_mail_by_uid mbox u P with
    | mk r evsp =>
      cases r with
      | none =>
        simp only [phase3, hp]
        exact ih st P (evs ++ evsp)
      | some uId =>
        simp only [phase3, hp]
        cases hs : save_processed_ids (insert ("uid:" ++ u) (insert uId P)) st with
        | mk ok st1 =>
          cases ok with
          | true =>
            simp only
            exact Finset.Subset.trans
              (Finset.Subset.trans (Finset.subset_insert _ _) (Finset.subset_insert _ _))
              (ih st1 (insert ("uid:" ++ u) (insert uId P)) (evs ++ evsp))
          | false =>
            simp only
            exact Finset.Subset.trans (Finset.subset_insert _ _) (Finset.subset_insert _ _)

theorem phase3_none_all (mbox : Mailbox) :
    ∀ (uids : List String) (st : Store) (P : Finset String) (evs : List NotifyEvent),
    (∀ u ∈ uids, process_mail_by_uid mbox u P = (none, [])) →
    phase3 mbox st P evs uids = (st, P, evs) := by
  intro uids
  induction uids with
  | nil => intro st P evs _; rfl
  | cons u rest ih =>
    intro st P evs h
    have hu : process_mail_by_uid mbox u P = (none, []) := h u (by simp)
    simp only [phase3, hu, List.append_nil]
    exact ih st P evs (fun u2 h2 => h u2 (by simp [h2]))

theorem phase3_events (mbox : Mailbox) (u0 : String)
    (hproc : ∀ Q, (process_mail_by_uid mbox u0 Q).1 = none) :
    ∀ (uids : List String) (st : Store) (P : Finset String) (evs : List NotifyEvent),
    (∀ e ∈ evs, e.uid ≠ u0) →
    ∀ e ∈ (phase3 mbox st P evs uids).2.2, e.uid ≠ u0 := by
  intro uids
  induction uids with
  | nil => intro st P evs hevs; simpa [phase3] using hevs
  | cons u rest ih =>
    intro st P evs hevs
    have hall : ∀ e ∈ evs ++ (process_mail_by_uid mbox u P).2, e.uid ≠ u0 := by
      intro e he
      rcases List.mem_append.mp he with he1 | he2
      · exact hevs e he1
      · have heu : e.uid = u := process_events_uid mbox u P e he2
        intro hc
        rw [heu] at hc
        subst hc
        rcases (process_mono_none mbox u P P subset_rfl (hproc P)) with ⟨hP, _⟩
        rw [hP] at he2
        simp at he2
    cases hp : process_mail_by_uid mbox u P with
    | mk r evsp =>
      cases r with
      | none =>
        simp only [phase3, hp]
        refine ih st P (evs ++ evsp) ?_
        intro e he
        exact hall e (by rw [hp]; exact he)
      | some uId =>
        simp only [phase3, hp]
        cases hs : save_processed_ids (insert ("uid:" ++ u) (insert uId P)) st with
        | mk ok st1 =>
          cases ok with
          | true =>
            simp only
            refine ih st1 (insert ("uid:" ++ u) (insert uId P)) (evs ++ evsp) ?_
            intro e he
            exact hall e (by rw [hp]; exact he)
          | false =>
            simp only
            intro e he
            exact hall e (by rw [hp]; exact he)

theorem phase3_uid_token (mbox : Mailbox) (u0 : String)
    (hproc : ∀ Q, (process_mail_by_uid mbox u0 Q).1 = none) :
    ∀ (uids : List String) (st : Store) (P : Finset String) (evs : List NotifyEvent),
    ("uid:" ++ u0) ∉ P → ("uid:" ++ u0) ∉ (phase3 mbox st P evs uids).2.1 := by
  intro uids
  induction uids with
  | nil => intro st P evs hP; simpa [phase3] using hP
  | cons u rest ih =>
    intro st P evs hP
    cases hp : process_mail_by_uid mbox u P with
    | mk r evsp =>
      cases r with
      | none =>
        simp only [phase3, hp]
        exact ih st P (evs ++ evsp) hP
      | some uId =>
        have hne1 : "uid:" ++ u0 ≠ "uid:" ++ u := by
          intro hc
          have he : u0 = u := uid_inj _ _ hc
          subst he
          have h0 := hproc P
          rw [hp] at h0
          simp at h0
        have hshape := process_some_shape mbox u P uId evsp hp
        have hne2 : "uid:" ++ u0 ≠ uId := by
          rcases hshape.2 with ⟨g, rfl⟩ | ⟨m, rfl⟩
          · exact uid_ne_gm u0 g
          · exact uid_ne_mid u0 m
        have hP1 : ("uid:" ++ u0) ∉ insert ("uid:" ++ u) (insert uId P) := by
          simp [Finset.mem_insert, hne1, hne2, hP]
        simp only [phase3, hp]
        cases hs : save_processed_ids (insert ("uid:" ++ u) (insert uId P)) st with
        | mk ok st1 =>
          cases ok with
          | true =>
            simp only
            exact ih st1 _ (evs ++ evsp) hP1
          | false =>
            simp only
            exact hP1

theorem phase3_main (mbox : Mailbox) :
    ∀ (uids : List String) (st : Store) (P : Finset String) (evs : List NotifyEvent),
    st.writable = true → goodLoad st.file P → migFixed P →
    (phase3 mbox st P evs uids).1.writable = true ∧
    goodLoad (phase3 mbox st P evs uids).1.file (phase3 mbox st P evs uids).2.1 ∧
    migFixed (phase3 mbox st P evs uids).2.1 ∧
    (∀ u ∈ uids, ("uid:" ++ u) ∈ (phase3 mbox st P evs uids).2.1 ∨
      process_mail_by_uid mbox u ((phase3 mbox st P evs uids).2.1) = (none, [])) := by
  intro uids
  induction uids with
  | nil =>
    intro st P evs hw hg hm
    simp only [phase3]
    exact ⟨hw, hg, hm, by simp⟩
  | cons u rest ih =>
    intro st P evs hw hg hm
    cases hp : process_mail_by_uid mbox u P with
    | mk r evsp =>
      cases r with
      | none =>
        simp only [phase3, hp]
        have main := ih st P (evs ++ evsp) hw hg hm
        refine ⟨main.1, main.2.1, main.2.2.1, ?_⟩
        intro u2 hu2
        rcases List.mem_cons.mp hu2 with rfl | hmem
        · right
          have hsub := phase3_mono mbox rest st P (evs ++ evsp)
          exact (process_mono_none mbox u2 P _ hsub (by rw [hp])).2
        · exact main.2.2.2 u2 hmem
      | some uId =>
        have hshape := process_some_shape mbox u P uId evsp hp
        have hm1 : migFixed (insert ("uid:" ++ u) (insert uId P)) :=
          migFixed_insert _ _ (migrateToken_uid u) (migFixed_insert _ _ hshape.1 hm)
        have hsave := save_ok (insert ("uid:" ++ u) (insert uId P)) st hw
        simp only [phase3, hp, hsave]
        have hg1 : goodLoad (tokensToFile (insert ("uid:" ++ u) (insert uId P)))
            (insert ("uid:" ++ u) (insert uId P)) := goodLoad_tokensToFile _ hm1
        have main := ih ⟨tokensToFile (insert ("uid:" ++ u) (insert uId P)), true⟩
          (insert ("uid:" ++ u) (insert uId P)) (evs ++ evsp) rfl hg1 hm1
        refine ⟨main.1, main.2.1, main.2.2.1, ?_⟩
        intro u2 hu2
        rcases List.mem_cons.mp hu2 with rfl | hmem
        · left
          have hsub := phase3_mono mbox rest
            ⟨tokensToFile (insert ("uid:" ++ u2) (insert uId P)), true⟩
            (insert ("uid:" ++ u2) (insert uId P)) (evs ++ evsp)
          exact hsub (Finset.mem_insert_self _ _)
        · exact main.2.2.2 u2 hmem

theorem mem_uidsToCheck (mbox : Mailbox) (P : Finset String) (u : String) :
    u ∈ uidsToCheckOf mbox P ↔ u ∈ mbox.map Prod.fst ∧ ("uid:" ++ u) ∉ P := by
  unfold uidsToCheckOf
  simp [List.mem_filter]

theorem mem_marked (mbox : Mailbox) (P : Finset String) (u : String) :
    u ∈ markedUids mbox P ↔ u ∈ uidsToCheckOf mbox P ∧ isMarked mbox P u = true := by
  unfold markedUids
  simp [List.mem_filter]

theorem mem_trulyNew (mbox : Mailbox) (P : Finset String) (u : String) :
    u ∈ trulyNewUids mbox P ↔ u ∈ uidsToCheckOf mbox P ∧ isMarked mbox P u = false := by
  unfold trulyNewUids
  simp [List.mem_filter]

theorem afterLoad_good (mbox : Mailbox) (P : Finset String) (st : Store)
    (hw : st.writable = true) (hg : goodLoad st.file P) (hm : migFixed P) :
    (afterLoad mbox P st).store.writable = true ∧
    goodLoad (afterLoad mbox P st).store.file (afterLoad mbox P st).finalIds ∧
    migFixed (afterLoad mbox P st).finalIds ∧
    P ⊆ (afterLoad mbox P st).finalIds ∧
    (∀ u ∈ mbox.map Prod.fst,
      ("uid:" ++ u) ∈ (afterLoad mbox P st).finalIds ∨
      process_mail_by_uid mbox u ((afterLoad mbox P st).finalIds) = (none, [])) := by
  unfold afterLoad
  by_cases hempty : (uidsToCheckOf mbox P).isEmpty = true
  · rw [if_pos hempty]
    refine ⟨hw, hg, hm, subset_rfl, ?_⟩
    intro u hu
    left
    have hnil : uidsToCheckOf mbox P = [] := List.isEmpty_iff.mp hempty
    by_contra htok
    have hmem : u ∈ uidsToCheckOf mbox P := (mem_uidsToCheck mbox P u).mpr ⟨hu, htok⟩
    rw [hnil] at hmem
    simp at hmem
  · rw [if_neg hempty]
    by_cases hmarked : (markedUids mbox P).isEmpty = true
    · rw [if_pos hmarked]
      have main := phase3_main mbox (trulyNewUids mbox P) st P [] hw hg hm
      refine ⟨main.1, main.2.1, main.2.2.1, phase3_mono mbox _ st P [], ?_⟩
      intro u hu
      by_cases htok : ("uid:" ++ u) ∈ P
      · left
        exact phase3_mono mbox _ st P [] htok
      · have hcheck : u ∈ uidsToCheckOf mbox P := (mem_uidsToCheck mbox P u).mpr ⟨hu, htok⟩
        cases hmark : isMarked mbox P u with
        | true =>
          exfalso
          have hnil : markedUids mbox P = [] := List.isEmpty_iff.mp hmarked
          have humem : u ∈ markedUids mbox P := (mem_marked mbox P u).mpr ⟨hcheck, hmark⟩
          rw [hnil] at humem
          simp at humem
        | false =>
          have htn : u ∈ trulyNewUids mbox P := (mem_trulyNew mbox P u).mpr ⟨hcheck, hmark⟩
          exact main.2.2.2 u htn
    · rw [if_neg hmarked]
      have hm2 : migFixed (P ∪ ((markedUids mbox P).map (fun u => "uid:" ++ u)).toFinset) := by
        apply migFixed_union _ _ hm
        apply migrate_pointwise
        intro a ha
        rw [List.mem_toFinset, List.mem_map] at ha
        obtain ⟨u, _, rfl⟩ := ha
        exact migrateToken_uid u
      have hsave := save_ok
        (P ∪ ((markedUids mbox P).map (fun u => "uid:" ++ u)).toFinset) st hw
      have hs1 : (save_processed_ids
          (P ∪ ((markedUids mbox P).map (fun u => "uid:" ++ u)).toFinset) st).1 = true := by
        rw [hsave]
      have hs2 : (save_processed_ids
          (P ∪ ((markedUids mbox P).map (fun u => "uid:" ++ u)).toFinset) st).2 =
          ⟨tokensToFile (P ∪ ((markedUids mbox P).map (fun u => "uid:" ++ u)).toFinset),
           true⟩ := by
        rw [hsave]
      rw [if_pos hs1, hs2]
      have main := phase3_main mbox (trulyNewUids mbox P)
        ⟨tokensToFile (P ∪ ((markedUids mbox P).map (fun u => "uid:" ++ u)).toFinset), true⟩
        (P ∪ ((markedUids mbox P).map (fun u => "uid:" ++ u)).toFinset) [] rfl
        (goodLoad_tokensToFile _ hm2) hm2
      refine ⟨main.1, main.2.1, main.2.2.1, ?_, ?_⟩
      · exact fun x hx => phase3_mono mbox _ _ _ [] (Finset.mem_union_left _ hx)
      · intro u hu
        by_cases htok : ("uid:" ++ u) ∈ P
        · left
          exact phase3_mono mbox _ _ _ [] (Finset.mem_union_left _ htok)
        · have hcheck : u ∈ uidsToCheckOf mbox P := (mem_uidsToCheck mbox P u).mpr ⟨hu, htok⟩
          cases hmark : isMarked mbox P u with
          | true =>
            left
            have humem : u ∈ markedUids mbox P := (mem_marked mbox P u).mpr ⟨hcheck, hmark⟩
            have htok2 : ("uid:" ++ u) ∈
                ((markedUids mbox P).map (fun u => "uid:" ++ u)).toFinset :=
              List.mem_toFinset.mpr (List.mem_map.mpr ⟨u, humem, rfl⟩)
            exact phase3_mono mbox _ _ _ [] (Finset.mem_union_right _ htok2)
          | false =>
            have htn : u ∈ trulyNewUids mbox P := (mem_trulyNew mbox P u).mpr ⟨hcheck, hmark⟩
            exact main.2.2.2 u htn

theorem afterLoad_superset (mbox : Mailbox) (P : Finset String) (st : Store) :
    P ⊆ (afterLoad mbox P st).finalIds := by
  unfold afterLoad
  by_cases hempty : (uidsToCheckOf mbox P).isEmpty = true
  · rw [if_pos hempty]
  · rw [if_neg hempty]
    by_cases hmarked : (markedUids mbox P).isEmpty = true
    · rw [if_pos hmarked]
      exact phase3_mono mbox _ st P []
    · rw [if_neg hmarked]
      by_cases hsv : (save_processed_ids
          (P ∪ ((markedUids mbox P).map (fun u => "uid:" ++ u)).toFinset) st).1 = true
      · rw [if_pos hsv]
        exact fun x hx => phase3_mono mbox _ _ _ [] (Finset.mem_union_left _ hx)
      · rw [if_neg hsv]
        exact fun x hx => Finset.mem_union_left _ hx

theorem afterLoad_no_events (mbox : Mailbox) (P : Finset String) (st : Store)
    (hcov : ∀ u ∈ mbox.map Prod.fst,
      ("uid:" ++ u) ∈ P ∨ process_mail_by_uid mbox u P = (none, [])) :
    (afterLoad mbox P st).events = [] := by
  have htn : ∀ u ∈ trulyNewUids mbox P, process_mail_by_uid mbox u P = (none, []) := by
    intro u hu
    have hc := (mem_trulyNew mbox P u).mp hu
    have hmu := (mem_uidsToCheck mbox P u).mp hc.1
    rcases hcov u hmu.1 with htok | hnone
    · exact absurd htok hmu.2
    · exact hnone
  unfold afterLoad
  by_cases hempty : (uidsToCheckOf mbox P).isEmpty = true
  · rw [if_pos hempty]
  · rw [if_neg hempty]
    by_cases hmarked : (markedUids mbox P).isEmpty = true
    · rw [if_pos hmarked]
      show (phase3 mbox st P [] (trulyNewUids mbox P)).2.2 = []
      rw [phase3_none_all mbox (trulyNewUids mbox P) st P [] htn]
    · rw [if_neg hmarked]
      by_cases hsv : (save_processed_ids
          (P ∪ ((markedUids mbox P).map (fun u => "uid:" ++ u)).toFinset) st).1 = true
      · rw [if_pos hsv]
        have htn2 : ∀ u ∈ trulyNewUids mbox P,
            process_mail_by_uid mbox u
              (P ∪ ((markedUids mbox P).map (fun u => "uid:" ++ u)).toFinset) =
            (none, []) := by
          intro u hu
          exact (process_mono_none mbox u P _
            (fun x hx => Finset.mem_union_left _ hx) (by rw [htn u hu])).2
        show (phase3 mbox _
          (P ∪ ((markedUids mbox P).map (fun u => "uid:" ++ u)).toFinset) []
          (trulyNewUids mbox P)).2.2 = []
        rw [phase3_none_all mbox (trulyNewUids mbox P) _ _ [] htn2]
      · rw [if_neg hsv]

theorem afterLoad_events_uid (mbox : Mailbox) (P : Finset String) (st : Store) (u0 : String)
    (hproc : ∀ Q, (process_mail_by_uid mbox u0 Q).1 = none) :
    ∀ e ∈ (afterLoad mbox P st).events, e.uid ≠ u0 := by
  unfold afterLoad
  by_cases hempty : (uidsToCheckOf mbox P).isEmpty = true
  · rw [if_pos hempty]
    simp
  · rw [if_neg hempty]
    by_cases hmarked : (markedUids mbox P).isEmpty = true
    · rw [if_pos hmarked]
      exact phase3_events mbox u0 hproc (trulyNewUids mbox P) st P [] (by simp)
    · rw [if_neg hmarked]
      by_cases hsv : (save_processed_ids
          (P ∪ ((markedUids mbox P).map (fun u => "uid:" ++ u)).toFinset) st).1 = true
      · rw [if_pos hsv]
        exact phase3_events mbox u0 hproc (trulyNewUids mbox P) _ _ [] (by simp)
      · rw [if_neg hsv]
        simp

theorem afterLoad_uid_token (mbox : Mailbox) (P : Finset String) (st : Store) (u0 : String)
    (hproc : ∀ Q, (process_mail_by_uid mbox u0 Q).1 = none)
    (hnm : isMarked mbox P u0 = false)
    (hP : ("uid:" ++ u0) ∉ P) :
    ("uid:" ++ u0) ∉ (afterLoad mbox P st).finalIds := by
  unfold afterLoad
  by_cases hempty : (uidsToCheckOf mbox P).isEmpty = true
  · rw [if_pos hempty]
    exact hP
  · rw [if_neg hempty]
    by_cases hmarked : (markedUids mbox P).isEmpty = true
    · rw [if_pos hmarked]
      exact phase3_uid_token mbox u0 hproc (trulyNewUids mbox P) st P [] hP
    · rw [if_neg hmarked]
      have hP2 : ("uid:" ++ u0) ∉
          P ∪ ((markedUids mbox P).map (fun u => "uid:" ++ u)).toFinset := by
        rw [Finset.mem_union]
        rintro (h | h)
        · exact hP h
        · rw [List.mem_toFinset, List.mem_map] at h
          obtain ⟨u, humem, heq⟩ := h
          have hu : u = u0 := uid_inj u u0 heq
          subst hu
          have hmk := ((mem_marked mbox P u).mp humem).2
          rw [hnm] at hmk
          exact absurd hmk (by decide)
      by_cases hsv : (save_processed_ids
          (P ∪ ((markedUids mbox P).map (fun u => "uid:" ++ u)).toFinset) st).1 = true
      · rw [if_pos hsv]
        exact phase3_uid_token mbox u0 hproc (trulyNewUids mbox P) _ _ [] hP2
      · rw [if_neg hsv]
        exact hP2

/-- Claim C1: idempotence of the polling cycle.  For every mailbox and
every writable store, running `check_mail` a second time against the
unchanged mailbox and the store persisted by the first (completed) cycle
makes no call to the Slack or LINE send operations. -/
theorem check_mail_idempotent (mbox : Mailbox) (st0 : Store)
    (hw : st0.writable = true) :
    (check_mail mbox (check_mail mbox st0).store).events = [] := by
  cases hload : load_processed_ids st0 with
  | error e =>
    rw [check_mail_load_error mbox st0 e hload]
    show (check_mail mbox st0).events = []
    rw [check_mail_load_error mbox st0 e hload]
  | ok res =>
    obtain ⟨⟨S, ok⟩, st1⟩ := res
    cases ok with
    | false =>
      have hst1 : st1 = st0 := load_false_store st0 S st1 hload
      rw [check_mail_load_false mbox st0 S st1 hload]
      show (check_mail mbox st1).events = []
      rw [hst1]
      rw [check_mail_load_false mbox st0 S st1 hload]
    | true =>
      obtain ⟨hw1, hmS, hgS⟩ := load_ok_good st0 S st1 hw hload
      rw [check_mail_load_ok mbox st0 S st1 hload]
      have main := afterLoad_good mbox S st1 hw1 hgS hmS
      have hload2 : load_processed_ids (afterLoad mbox S st1).store =
          .ok (((afterLoad mbox S st1).finalIds, true), (afterLoad mbox S st1).store) :=
        main.2.1 (afterLoad mbox S st1).store.writable
      rw [check_mail_load_ok mbox (afterLoad mbox S st1).store
        (afterLoad mbox S st1).finalIds (afterLoad mbox S st1).store hload2]
      exact afterLoad_no_events mbox (afterLoad mbox S st1).finalIds
        (afterLoad mbox S st1).store main.2.2.2.2

/-- Witness for C1: two consecutive cycles on a one-message mailbox
starting from a fresh store; the second cycle dispatches nothing. -/
theorem check_mail_idempotent_witness :
    (check_mail
      [("1", ⟨some "111", some "<m1@x>", "新しい応募者のお知らせ - 山田太郎",
        "山田太郎 <a@b>", [⟨"応募内容を確認する", some "https://indeed.com/apply/1"⟩],
        true⟩)]
      (check_mail
        [("1", ⟨some "111", some "<m1@x>", "新しい応募者のお知らせ - 山田太郎",
          "山田太郎 <a@b>", [⟨"応募内容を確認する", some "https://indeed.com/apply/1"⟩],
          true⟩)]
        ⟨.absent, true⟩).store).events = [] :=
  check_mail_idempotent _ ⟨.absent, true⟩ rfl

/-- Claim C6: the in-memory processed-id set is append-only during a
cycle.  Both mutation sites only add tokens: phase 3 (quantified over every
intermediate state, so it covers every point of the loop) yields a superset
of its input set, the phase-2 bootstrap union is a superset, and the final
in-memory set of a cycle that loaded successfully is a superset of the
loaded set. -/
theorem processed_ids_append_only :
    (∀ (mbox : Mailbox) (st : Store) (P : Finset String) (evs : List NotifyEvent)
       (uids : List String), P ⊆ (phase3 mbox st P evs uids).2.1) ∧
    (∀ (mbox : Mailbox) (P : Finset String),
       P ⊆ P ∪ ((markedUids mbox P).map (fun u => "uid:" ++ u)).toFinset) ∧
    (∀ (mbox : Mailbox) (st : Store) (S : Finset String) (st1 : Store),
       load_processed_ids st = .ok ((S, true), st1) →
       S ⊆ (check_mail mbox st).finalIds) := by
  refine ⟨?_, ?_, ?_⟩
  · intro mbox st P evs uids
    exact phase3_mono mbox uids st P evs
  · intro mbox P
    exact fun x hx => Finset.mem_union_left _ hx
  · intro mbox st S st1 h
    rw [check_mail_load_ok mbox st S st1 h]
    exact afterLoad_superset mbox S st1

/-- Witness for C6 at a concrete store and mailbox. -/
theorem processed_ids_append_only_witness :
    (∅ : Finset String) ⊆ (check_mail [] ⟨.absent, true⟩).finalIds :=
  processed_ids_append_only.2.2 [] ⟨.absent, true⟩ ∅ ⟨.absent, true⟩ rfl

/-- Claim C3: a fetched message with no truthy provider id and no truthy
Message-ID triggers no dispatch call during any cycle (no event is tagged
with its uid), and no `uid:` token for it is ever added to the set — it can
only be present afterwards if the loaded set already contained it.  The
message has no identity token, so no other token can refer to it; the
embedded cycle is a total function, which models that processing it does
not raise. -/
theorem unidentified_message_untouched (mbox : Mailbox) (st : Store)
    (uid : String) (msg : MailMessage)
    (hf : fetchMsg mbox uid = some msg)
    (hgm : msg.gmMsgid = none)
    (hmid : pyTruthy msg.messageId = false) :
    (∀ e ∈ (check_mail mbox st).events, e.uid ≠ uid) ∧
    (("uid:" ++ uid) ∈ (check_mail mbox st).finalIds →
      ("uid:" ++ uid) ∈ loadedSet st) := by
  have hid : get_unique_id msg.gmMsgid msg.messageId = none := by
    unfold get_unique_id
    rw [hgm]
    have h0 : pyTruthy (none : Option String) = false := rfl
    simp [h0, hmid]
  have hproc : ∀ Q, (process_mail_by_uid mbox uid Q).1 = none := by
    intro Q
    unfold process_mail_by_uid
    simp only [hf]
    cases hb : msg.bodyPresent with
    | false => simp [hb]
    | true => simp [hb, hid]
  have hnm0 : ∀ P : Finset String, isMarked mbox P uid = false := by
    intro P
    have hlw : get_gm_msgid_lightweight mbox uid = none := by
      unfold get_gm_msgid_lightweight
      simp only [hf, hgm]
    unfold isMarked
    simp only [hlw]
  cases hload : load_processed_ids st with
  | error e =>
    rw [check_mail_load_error mbox st e hload]
    constructor
    · simp
    · intro h
      simp at h
  | ok res =>
    obtain ⟨⟨S, ok⟩, st1⟩ := res
    cases ok with
    | false =>
      rw [check_mail_load_false mbox st S st1 hload]
      constructor
      · simp
      · intro h
        simp at h
    | true =>
      rw [check_mail_load_ok mbox st S st1 hload]
      have hls : loadedSet st = S := by
        unfold loadedSet
        rw [hload]
      constructor
      · exact afterLoad_events_uid mbox S st1 uid hproc
      · intro h
        rw [hls]
        by_contra htok
        exact afterLoad_uid_token mbox S st1 uid hproc (hnm0 S) htok h

/-- Witness for C3 at a concrete one-message mailbox whose message has
neither identity signal. -/
theorem unidentified_message_untouched_witness :
    (∀ e ∈ (check_mail [("9", ⟨none, none, "s", "f", [], true⟩)]
        ⟨.absent, true⟩).events, e.uid ≠ "9") ∧
    (("uid:" ++ "9") ∈ (check_mail [("9", ⟨none, none, "s", "f", [], true⟩)]
        ⟨.absent, true⟩).finalIds →
      ("uid:" ++ "9") ∈ loadedSet ⟨.absent, true⟩) :=
  unidentified_message_untouched _ _ "9" ⟨none, none, "s", "f", [], true⟩ rfl rfl rfl
